import Mathlib

/-!
Verification model of `woodpecker/tool_db/tool_db.py` (QtWoodpecker tool
database widget).  The two SQL tables (`offsets`, `tools`), the table-model
operations of `MyOffsetModel` / `MyToolModel`, and the spindle-time stopwatch
of `Tool_Database` are embedded as pure Lean functions over explicit state.
Python floats are modelled as rationals; the SQLite tables are modelled as
lists of records in row order; Qt model indexes `(row, column)` become list
indices plus column numbers matching the schema column order.
-/

namespace ToolDb

/-- Cell values as stored in or returned from the Qt/SQL table models:
integers, reals, or text. -/
inductive Val where
  | vi (z : Int)
  | vr (r : Rat)
  | vs (t : String)
deriving DecidableEq, Repr

/-- Floor of a rational, computed directly (`⌊q⌋ = q.num.fdiv q.den`). -/
def ratFloor (q : Rat) : Int := q.num.fdiv (q.den : Int)

/-- Decimal rendering of a rational with `d` fixed decimal places, modelling
the Python format string `"{:.df}"`.  Half-way cases round up here, while
CPython rounds the underlying binary double half-to-even; the two agree on
every value that appears in the claims. -/
def fmtDec (d : Nat) (q : Rat) : String :=
  let n : Int := ratFloor (q * ((10 : Rat) ^ d) + 1 / 2)
  let sgn := if n < 0 then "-" else ""
  let m := n.natAbs
  let ip := m / (10 ^ d)
  let fp := m % (10 ^ d)
  let fs := toString fp
  let pad := String.mk (List.replicate (d - fs.length) '0')
  sgn ++ toString ip ++ "." ++ pad ++ fs

/-- The numeric value denoted by `fmtDec 3 q`: rounding to 3 decimal places.
Used where the source formats a float with `"{:.3f}"` and the result is
stored into / read back from a REAL column. -/
def pyRound3 (q : Rat) : Rat := ((ratFloor (q * 1000 + 1 / 2) : Int) : Rat) / 1000

/-- Python `int()` on a float: truncation toward zero. -/
def pyInt (q : Rat) : Int := Int.tdiv q.num (q.den : Int)

/-- One line of the authoritative controller tool list
(`tool_array` as returned by `TOOL.GET_TOOL_MODELS()`): the 16 data values
`[tool, pocket, X..W, diameter, I, J, Q, comment]`, which also correspond,
in order, to the `offset_headers` columns 2..17 of the `offsets` schema. -/
structure ToolLine where
  tool : Int
  pocket : Int
  x : Rat
  y : Rat
  z : Rat
  a : Rat
  b : Rat
  c : Rat
  u : Rat
  v : Rat
  w : Rat
  diameter : Rat
  i : Rat
  j : Rat
  q : Int
  comment : String
deriving DecidableEq, Repr

/-- One row of the `offsets` table:
`idn` (surrogate key, column 0), `Chk` (column 1), and the 16 data columns
(columns 2..17) grouped as a `ToolLine`.  Note that the global
`offset_headers` map of the source only contains the columns with index
`> 1`, i.e. exactly the `ToolLine` part. -/
structure OffsetRow where
  idn : Int
  chk : Int
  fields : ToolLine
deriving DecidableEq, Repr

/-- One row of the `tools` table
(`idn, TOOL, TIME, RPM, CPT, LENGTH, FLUTES, FEED, MFG, ICON`). -/
structure ToolRow where
  idn : Int
  tool : Int
  time : Rat
  rpm : Int
  cpt : Rat
  length : Rat
  flutes : Int
  feed : Int
  mfg : String
  icon : String
deriving DecidableEq, Repr

/-- Joint state of the two table models (`MyOffsetModel` and its
`parent.tool_model`): row lists in table order, the SQLite autoincrement
counter for `offsets.idn`, the cached `tool_list`, and the shared
`metric_display` flag. -/
@[ext]
structure DbState where
  offsets : List OffsetRow
  tools : List ToolRow
  nextId : Int
  tool_list : List Int
  metric_display : Bool
deriving DecidableEq, Repr

/-- Index of the first list element satisfying `p` (the linear scan used by
both `get_index` methods). -/
def firstIdx? {α : Type} (p : α → Bool) : List α → Option Nat
  | [] => none
  | a :: l => if p a then some 0 else (firstIdx? p l).map (· + 1)

/-- `MyOffsetModel.get_index`: first row whose `Tool` column equals `tno`,
or `None`. -/
def get_index (offsets : List OffsetRow) (tno : Int) : Option Nat :=
  firstIdx? (fun r => r.fields.tool == tno) offsets

/-- Writing value `v` into column `col` of an `offsets` record
(`setData` at edit role with a `(row, col)` index).  Columns 2..17 are the
`offset_headers` data columns; column 1 is `Chk`; writes with a value of the
wrong type for the column, or to column 0 (`idn`), do not occur in the
source and leave the record unchanged. -/
def setField (r : OffsetRow) (col : Nat) (v : Val) : OffsetRow :=
  match col, v with
  | 1, .vi z => { r with chk := z }
  | 2, .vi z => { r with fields.tool := z }
  | 3, .vi z => { r with fields.pocket := z }
  | 4, .vr q => { r with fields.x := q }
  | 5, .vr q => { r with fields.y := q }
  | 6, .vr q => { r with fields.z := q }
  | 7, .vr q => { r with fields.a := q }
  | 8, .vr q => { r with fields.b := q }
  | 9, .vr q => { r with fields.c := q }
  | 10, .vr q => { r with fields.u := q }
  | 11, .vr q => { r with fields.v := q }
  | 12, .vr q => { r with fields.w := q }
  | 13, .vr q => { r with fields.diameter := q }
  | 14, .vr q => { r with fields.i := q }
  | 15, .vr q => { r with fields.j := q }
  | 16, .vi z => { r with fields.q := z }
  | 17, .vs t => { r with fields.comment := t }
  | _, _ => r

/-- `setData` on the offsets model at a `(row, col)` index: out-of-range rows
are invalid indexes and leave the table unchanged. -/
def setCell (offsets : List OffsetRow) (row col : Nat) (v : Val) :
    List OffsetRow :=
  match offsets[row]? with
  | none => offsets
  | some r => offsets.set row (setField r col v)

/-- `MyOffsetModel.update_row`: writes `data[i]` into column
`offset_headers[key]` for each of the 16 data columns, in header order. -/
def update_row (offsets : List OffsetRow) (row : Nat) (d : ToolLine) :
    List OffsetRow :=
  let o := setCell offsets row 2 (.vi d.tool)
  let o := setCell o row 3 (.vi d.pocket)
  let o := setCell o row 4 (.vr d.x)
  let o := setCell o row 5 (.vr d.y)
  let o := setCell o row 6 (.vr d.z)
  let o := setCell o row 7 (.vr d.a)
  let o := setCell o row 8 (.vr d.b)
  let o := setCell o row 9 (.vr d.c)
  let o := setCell o row 10 (.vr d.u)
  let o := setCell o row 11 (.vr d.v)
  let o := setCell o row 12 (.vr d.w)
  let o := setCell o row 13 (.vr d.diameter)
  let o := setCell o row 14 (.vr d.i)
  let o := setCell o row 15 (.vr d.j)
  let o := setCell o row 16 (.vi d.q)
  let o := setCell o row 17 (.vs d.comment)
  o

/-- `MyOffsetModel.addrow` (together with the paired
`MyToolModel.addrow(pkey, tno)` call): appends a new offsets row holding the
incoming data (with `Chk` at its schema default 0 and a fresh autoincrement
`idn`), then appends a tools row sharing the same `idn`, with `TOOL = tno`,
`TIME = 0.0` and the schema defaults for the remaining columns. -/
def addrow (s : DbState) (d : ToolLine) : DbState :=
  let pkey := s.nextId
  let newOff : OffsetRow := { idn := pkey, chk := 0, fields := d }
  let newTool : ToolRow :=
    { idn := pkey, tool := d.tool, time := 0, rpm := 0, cpt := 0, length := 0,
      flutes := 0, feed := 0, mfg := "", icon := "not_found.png" }
  { s with offsets := s.offsets ++ [newOff],
           tools := s.tools ++ [newTool],
           nextId := s.nextId + 1 }

/-- `MyOffsetModel.delrow`: looks up the row of `tno` in the offsets table;
if found, removes that row index from the offsets table and the same row
index from the tools table. -/
def delrow (s : DbState) (tno : Int) : DbState :=
  match get_index s.offsets tno with
  | none => s
  | some row =>
      { s with offsets := s.offsets.eraseIdx row,
               tools := s.tools.eraseIdx row }

/-- The body of the first loop of `MyOffsetModel.update` for one incoming
line: append its tool number to `tool_list`, then add a new row if the tool
number is unknown, otherwise overwrite the existing row in place. -/
def updateStep (acc : DbState) (line : ToolLine) : DbState :=
  let acc1 := { acc with tool_list := acc.tool_list ++ [line.tool] }
  match get_index acc1.offsets line.tool with
  | none => addrow acc1 line
  | some row => { acc1 with offsets := update_row acc1.offsets row line }

/-- `MyOffsetModel.update`, reconciliation against the authoritative
controller tool list `tool_array`: reset `tool_list`, process each incoming
line (add or update), then collect the tool numbers of all rows absent from
`tool_list`, reverse that list when it has more than one entry, and delete
each collected tool number via `delrow`. -/
def update (s : DbState) (tool_array : List ToolLine) : DbState :=
  let s1 := tool_array.foldl updateStep { s with tool_list := [] }
  let delete_list :=
    (s1.offsets.filter (fun r => !(s1.tool_list.contains r.fields.tool))).map
      (fun r => r.fields.tool)
  let dl := if 1 < delete_list.length then delete_list.reverse else delete_list
  dl.foldl delrow s1

/-- `MyOffsetModel.uncheck_all_tools`: every row whose `Chk` cell reads 1 is
written back to 0. -/
def uncheck_all_tools (offsets : List OffsetRow) : List OffsetRow :=
  offsets.map (fun r => if r.chk == 1 then { r with chk := 0 } else r)

/-- `MyOffsetModel.setData` at check-state role on column 1 with value
`Qt.Checked`: uncheck every tool, then write 1 into the `Chk` cell of the
target row. -/
def setData_checked (offsets : List OffsetRow) (row : Nat) : List OffsetRow :=
  setCell (uncheck_all_tools offsets) row 1 (.vi 1)

/-- `MyOffsetModel.setData` at check-state role on column 1 with value
`Qt.Unchecked`: write 0 into the `Chk` cell of the target row. -/
def setData_unchecked (offsets : List OffsetRow) (row : Nat) : List OffsetRow :=
  setCell offsets row 1 (.vi 0)

/-- `MyOffsetModel.list_checked_tools`: the `Tool` values of all rows whose
`Chk` cell equals 1, in row order. -/
def list_checked_tools (offsets : List OffsetRow) : List Int :=
  (offsets.filter (fun r => r.chk == 1)).map (fun r => r.fields.tool)

/-- Number of rows whose `Chk` cell equals 1. -/
def countChecked (offsets : List OffsetRow) : Nat :=
  offsets.countP (fun r => r.chk == 1)

/-- `Tool_Database.get_next_available`: scan `tno` over `range(0, 100)` and
break at the first value not contained in the cached `tool_list`; the loop
variable (99 when the loop runs to completion) is returned. -/
def get_next_available (tool_list : List Int) : Int :=
  match (List.range 100).find? (fun n : Nat => !(tool_list.contains (n : Int))) with
  | some n => (n : Int)
  | none => 99

/-- `data()` of the offsets model at display role for the value of one cell:
floats are rendered as fixed-point strings with 3 decimals in metric mode
(4 in imperial mode); integers and text pass through. -/
def displayVal (metric : Bool) (v : Val) : Val :=
  match v with
  | .vr q => .vs (fmtDec (if metric then 3 else 4) q)
  | x => x

/-- The raw value of column `col` of an offsets record, by schema column
number (0 = `idn`, 1 = `Chk`, 2..17 the data columns). -/
def offsetDataRow (r : OffsetRow) (col : Nat) : Val :=
  match col with
  | 0 => .vi r.idn
  | 1 => .vi r.chk
  | 2 => .vi r.fields.tool
  | 3 => .vi r.fields.pocket
  | 4 => .vr r.fields.x
  | 5 => .vr r.fields.y
  | 6 => .vr r.fields.z
  | 7 => .vr r.fields.a
  | 8 => .vr r.fields.b
  | 9 => .vr r.fields.c
  | 10 => .vr r.fields.u
  | 11 => .vr r.fields.v
  | 12 => .vr r.fields.w
  | 13 => .vr r.fields.diameter
  | 14 => .vr r.fields.i
  | 15 => .vr r.fields.j
  | 16 => .vi r.fields.q
  | 17 => .vs r.fields.comment
  | _ => .vs ""

/-- The raw value of column `col` of row `row` of the offsets table.
An out-of-range row index is an invalid Qt index and reads as an empty
variant. -/
def offsetData (offsets : List OffsetRow) (row col : Nat) : Val :=
  match offsets[row]? with
  | none => .vs ""
  | some r => offsetDataRow r col

/-- The column numbers iterated by `for hdr in offset_headers`: the
`offset_headers` map is populated only for column indices `> 1`, so it holds
exactly columns 2..17 in schema order. -/
def offsetHeaderCols : List Nat := [2, 3, 4, 5, 6, 7, 8, 9, 10, 11, 12, 13, 14, 15, 16, 17]

/-- `Tool_Database.save_table`: for every row index of the offsets model,
read each `offset_headers` column through `data()` (display role) and
collect the values into one line per row. -/
def save_table (s : DbState) : List (List Val) :=
  (List.range s.offsets.length).map (fun row =>
    offsetHeaderCols.map (fun col =>
      displayVal s.metric_display (offsetData s.offsets row col)))

/-- The `timer_dict` of `Tool_Database`:
`{'running': bool, 'tool': int, 'time': seconds}`. -/
structure TimerDict where
  running : Bool
  tool : Int
  time : Int
deriving DecidableEq, Repr

/-- State of the `Tool_Database` widget relevant to the usage timer:
the two table models, `timer_dict`, the heartbeat subdivision counter
`timer_tenths`, and `current_row` (None when the spindle is empty). -/
@[ext]
structure ToolDatabase where
  db : DbState
  timer : TimerDict
  timer_tenths : Nat
  current_row : Option Nat
deriving DecidableEq, Repr

/-- `Tool_Database.start_tool_timer`: ignores an empty spindle (tool 0),
sets `running` to True, then tries to seed the elapsed-seconds counter from
the stored cumulative time (minutes, REAL column read through `data()` and
`float()`, hence rounded to the 3 displayed decimals) of the tool's row; if
the tool has no offsets row the seeding is skipped and the counter keeps its
previous value.  The tools table is indexed with the row number found in the
offsets table. -/
def start_tool_timer (s : ToolDatabase) : ToolDatabase :=
  let tno := s.timer.tool
  if tno == 0 then s
  else
    let s1 := { s with timer.running := true }
    match get_index s1.db.offsets tno with
    | none => s1
    | some row =>
        match s1.db.tools[row]? with
        | none => s1
        | some tr =>
            let pre_time := pyRound3 tr.time
            { s1 with timer.time := pyInt (pre_time * 60) }

/-- Writing a new TIME value into row `row` of the tools table. -/
def writeTime (tools : List ToolRow) (row : Nat) (v : Rat) : List ToolRow :=
  match tools[row]? with
  | none => tools
  | some r => tools.set row { r with time := v }

/-- `Tool_Database.stop_tool_timer`: does nothing unless running; clears
`running`, then, if the current tool has an offsets row, writes the elapsed
seconds divided by 60 — formatted with `"{:.3f}"`, hence rounded to 3
decimal places — into the TIME cell of the tools table at the row index
found in the offsets table. -/
def stop_tool_timer (s : ToolDatabase) : ToolDatabase :=
  if !s.timer.running then s
  else
    let tno := s.timer.tool
    let s1 := { s with timer.running := false }
    match get_index s1.db.offsets tno with
    | none => s1
    | some row =>
        let total_time := pyRound3 ((s1.timer.time : Rat) / 60)
        { s1 with db.tools := writeTime s1.db.tools row total_time }

/-- `Tool_Database.tool_timer`, the `periodic` (100 ms) heartbeat callback:
counts tenths; on every tenth call the counter resets and, when the timer is
running, one second is added to the elapsed time. -/
def tool_timer (s : ToolDatabase) : ToolDatabase :=
  let t := s.timer_tenths + 1
  if t == 10 then
    let s1 := { s with timer_tenths := 0 }
    if s.timer.running then { s1 with timer.time := s1.timer.time + 1 } else s1
  else
    { s with timer_tenths := t }

/-- `Tool_Database.tool_changed`, the `tool-in-spindle-changed` callback:
records the highlighted row (None for tool 0); for a nonzero tool it
becomes the timer's tool and, when the interpreter is in auto run
(`STATUS.is_auto_running()`, passed as `auto_running`), the timer starts.
Nothing else happens for tool 0. -/
def tool_changed (s : ToolDatabase) (tool : Int) (auto_running : Bool) :
    ToolDatabase :=
  let s1 :=
    { s with current_row := if tool == 0 then none else get_index s.db.offsets tool }
  if 0 < tool then
    let s2 := { s1 with timer.tool := tool }
    if auto_running then start_tool_timer s2 else s2
  else s1

/-- `Tool_Database.interp_state`, the `interp-run` / `interp-idle` callback:
ignored outside auto mode (`STATUS.is_auto_mode()`, passed as `auto_mode`);
in auto mode a run start starts the timer and a run end stops it. -/
def interp_state (s : ToolDatabase) (state auto_mode : Bool) : ToolDatabase :=
  if !auto_mode then s
  else if state then start_tool_timer s
  else stop_tool_timer s

/-! ### Generic list lemmas -/

theorem set_self_of_getElem? {α : Type} {l : List α} {i : Nat} {a : α}
    (h : l[i]? = some a) : l.set i a = l := by
  induction l generalizing i with
  | nil => simp at h
  | cons x xs ih =>
      cases i with
      | zero => simp_all
      | succ n => simp_all

theorem firstIdx?_eq_none_iff {α : Type} {p : α → Bool} {l : List α} :
    firstIdx? p l = none ↔ ∀ a ∈ l, p a = false := by
  induction l with
  | nil => simp [firstIdx?]
  | cons x xs ih =>
      by_cases h : p x = true
      · simp [firstIdx?, h]
      · simp only [Bool.not_eq_true] at h
        simp [firstIdx?, h, ih]

theorem firstIdx?_getElem {α : Type} {p : α → Bool} {l : List α} {i : Nat}
    (h : firstIdx? p l = some i) : ∃ a, l[i]? = some a ∧ p a = true := by
  induction l generalizing i with
  | nil => simp [firstIdx?] at h
  | cons x xs ih =>
      by_cases hp : p x = true
      · simp [firstIdx?, hp] at h
        subst h
        exact ⟨x, by simp, hp⟩
      · simp only [Bool.not_eq_true] at hp
        simp only [firstIdx?, hp, Bool.false_eq_true, if_false, Option.map_eq_some'] at h
        obtain ⟨j, hj, rfl⟩ := h
        obtain ⟨a, ha, hpa⟩ := ih hj
        exact ⟨a, by simpa using ha, hpa⟩

theorem firstIdx?_lt_length {α : Type} {p : α → Bool} {l : List α} {i : Nat}
    (h : firstIdx? p l = some i) : i < l.length := by
  obtain ⟨a, ha, -⟩ := firstIdx?_getElem h
  exact (List.getElem?_eq_some.mp ha).1

theorem firstIdx?_head_filter {α : Type} {p : α → Bool} {l : List α} {i : Nat}
    (h : firstIdx? p l = some i) : l[i]? = (l.filter p).head? := by
  induction l generalizing i with
  | nil => simp [firstIdx?] at h
  | cons x xs ih =>
      by_cases hp : p x = true
      · simp [firstIdx?, hp] at h
        subst h
        simp [List.filter_cons, hp]
      · simp only [Bool.not_eq_true] at hp
        simp only [firstIdx?, hp, Bool.false_eq_true, if_false, Option.map_eq_some'] at h
        obtain ⟨j, hj, rfl⟩ := h
        simpa [List.filter_cons, hp] using ih hj

theorem filter_set_of_firstIdx? {α : Type} {p : α → Bool} {l : List α} {i : Nat}
    {b : α} (h : firstIdx? p l = some i) (hb : p b = true) :
    ((l.set i b).filter p).head? = some b := by
  induction l generalizing i with
  | nil => simp [firstIdx?] at h
  | cons x xs ih =>
      by_cases hp : p x = true
      · simp [firstIdx?, hp] at h
        subst h
        simp [List.filter_cons, hb]
      · simp only [Bool.not_eq_true] at hp
        simp only [firstIdx?, hp, Bool.false_eq_true, if_false, Option.map_eq_some'] at h
        obtain ⟨j, hj, rfl⟩ := h
        simpa [List.filter_cons, hp] using ih hj

theorem filter_set_of_false {α : Type} {p : α → Bool} {l : List α} {i : Nat}
    {a b : α} (ha : l[i]? = some a) (hpa : p a = false) (hpb : p b = false) :
    (l.set i b).filter p = l.filter p := by
  induction l generalizing i with
  | nil => simp at ha
  | cons x xs ih =>
      cases i with
      | zero =>
          simp only [List.getElem?_cons_zero, Option.some.injEq] at ha
          subst ha
          simp [List.filter_cons, hpa, hpb]
      | succ n =>
          simp only [List.getElem?_cons_succ] at ha
          simp [List.filter_cons, ih ha]

theorem filter_eraseIdx_of_false {α : Type} {p : α → Bool} {l : List α} {i : Nat}
    {a : α} (ha : l[i]? = some a) (hpa : p a = false) :
    (l.eraseIdx i).filter p = l.filter p := by
  induction l generalizing i with
  | nil => simp at ha
  | cons x xs ih =>
      cases i with
      | zero =>
          simp only [List.getElem?_cons_zero, Option.some.injEq] at ha
          subst ha
          simp [List.eraseIdx, List.filter_cons, hpa]
      | succ n =>
          simp only [List.getElem?_cons_succ] at ha
          simp [List.eraseIdx, List.filter_cons, ih ha]

theorem countP_set_of_eq {α : Type} {p : α → Bool} {l : List α} {i : Nat}
    {a b : α} (ha : l[i]? = some a) (hab : p b = p a) :
    (l.set i b).countP p = l.countP p := by
  induction l generalizing i with
  | nil => simp at ha
  | cons x xs ih =>
      cases i with
      | zero =>
          simp only [List.getElem?_cons_zero, Option.some.injEq] at ha
          subst ha
          simp [List.countP_cons, hab]
      | succ n =>
          simp only [List.getElem?_cons_succ] at ha
          simp [List.countP_cons, ih ha]

theorem countP_eraseIdx_le {α : Type} (p : α → Bool) (l : List α) (i : Nat) :
    (l.eraseIdx i).countP p ≤ l.countP p := by
  induction l generalizing i with
  | nil => simp
  | cons x xs ih =>
      cases i with
      | zero => simp [List.eraseIdx, List.countP_cons]
      | succ n =>
          simp only [List.eraseIdx, List.countP_cons]
          have := ih n
          omega

theorem eraseIdx_map_of_firstIdx? {α β : Type} [BEq β] [LawfulBEq β]
    {f : α → β} {t : β} {l : List α} {i : Nat}
    (h : firstIdx? (fun a => f a == t) l = some i) :
    (l.eraseIdx i).map f = (l.map f).erase t := by
  induction l generalizing i with
  | nil => simp [firstIdx?] at h
  | cons x xs ih =>
      by_cases hp : (f x == t) = true
      · simp only [firstIdx?, hp, if_true, Option.some.injEq] at h
        subst h
        simp [List.eraseIdx, List.erase_cons, hp]
      · simp only [Bool.not_eq_true] at hp
        simp only [firstIdx?, hp, Bool.false_eq_true, if_false, Option.map_eq_some'] at h
        obtain ⟨j, hj, rfl⟩ := h
        simp [List.eraseIdx, List.erase_cons, hp, ih hj]

theorem not_mem_map_of_firstIdx?_none {α β : Type} [BEq β] [LawfulBEq β]
    {f : α → β} {t : β} {l : List α}
    (h : firstIdx? (fun a => f a == t) l = none) : t ∉ l.map f := by
  rw [firstIdx?_eq_none_iff] at h
  intro hm
  obtain ⟨a, ha, rfl⟩ := List.mem_map.mp hm
  have := h a ha
  simp at this

/-! ### The structure of `update_row` -/

theorem setCell_set_same {offsets : List OffsetRow} {row : Nat}
    (hlen : row < offsets.length) (a : OffsetRow) (c : Nat) (v : Val) :
    setCell (offsets.set row a) row c v = offsets.set row (setField a c v) := by
  have h : (offsets.set row a)[row]? = some a :=
    List.getElem?_set_self (by simpa using hlen)
  simp [setCell, h, List.set_set]

/-- `update_row` overwrites exactly the 16 data columns of the target row:
the row becomes the incoming line while `idn` and `Chk` keep their values. -/
theorem update_row_eq {offsets : List OffsetRow} {row : Nat} {r : OffsetRow}
    (d : ToolLine) (h : offsets[row]? = some r) :
    update_row offsets row d =
      offsets.set row { idn := r.idn, chk := r.chk, fields := d } := by
  have hlen : row < offsets.length := (List.getElem?_eq_some.mp h).1
  obtain ⟨ridn, rchk, rf⟩ := r
  obtain ⟨g1, g2, g3, g4, g5, g6, g7, g8, g9, g10, g11, g12, g13, g14, g15, g16⟩ := rf
  obtain ⟨d1, d2, d3, d4, d5, d6, d7, d8, d9, d10, d11, d12, d13, d14, d15, d16⟩ := d
  have hc : ∀ (c : Nat) (v : Val),
      setCell offsets row c v =
        offsets.set row (setField ⟨ridn, rchk, ⟨g1, g2, g3, g4, g5, g6, g7, g8,
          g9, g10, g11, g12, g13, g14, g15, g16⟩⟩ c v) := by
    intro c v
    simp [setCell, h]
  simp only [update_row, hc, setCell_set_same hlen]
  have e02 : setField ⟨ridn, rchk, ⟨g1, g2, g3, g4, g5, g6, g7, g8, g9, g10, g11, g12, g13, g14, g15, g16⟩⟩ 2 (Val.vi d1) = ⟨ridn, rchk, ⟨d1, g2, g3, g4, g5, g6, g7, g8, g9, g10, g11, g12, g13, g14, g15, g16⟩⟩ := rfl
  have e03 : setField ⟨ridn, rchk, ⟨d1, g2, g3, g4, g5, g6, g7, g8, g9, g10, g11, g12, g13, g14, g15, g16⟩⟩ 3 (Val.vi d2) = ⟨ridn, rchk, ⟨d1, d2, g3, g4, g5, g6, g7, g8, g9, g10, g11, g12, g13, g14, g15, g16⟩⟩ := rfl
  have e04 : setField ⟨ridn, rchk, ⟨d1, d2, g3, g4, g5, g6, g7, g8, g9, g10, g11, g12, g13, g14, g15, g16⟩⟩ 4 (Val.vr d3) = ⟨ridn, rchk, ⟨d1, d2, d3, g4, g5, g6, g7, g8, g9, g10, g11, g12, g13, g14, g15, g16⟩⟩ := rfl
  have e05 : setField ⟨ridn, rchk, ⟨d1, d2, d3, g4, g5, g6, g7, g8, g9, g10, g11, g12, g13, g14, g15, g16⟩⟩ 5 (Val.vr d4) = ⟨ridn, rchk, ⟨d1, d2, d3, d4, g5, g6, g7, g8, g9, g10, g11, g12, g13, g14, g15, g16⟩⟩ := rfl
  have e06 : setField ⟨ridn, rchk, ⟨d1, d2, d3, d4, g5, g6, g7, g8, g9, g10, g11, g12, g13, g14, g15, g16⟩⟩ 6 (Val.vr d5) = ⟨ridn, rchk, ⟨d1, d2, d3, d4, d5, g6, g7, g8, g9, g10, g11, g12, g13, g14, g15, g16⟩⟩ := rfl
  have e07 : setField ⟨ridn, rchk, ⟨d1, d2, d3, d4, d5, g6, g7, g8, g9, g10, g11, g12, g13, g14, g15, g16⟩⟩ 7 (Val.vr d6) = ⟨ridn, rchk, ⟨d1, d2, d3, d4, d5, d6, g7, g8, g9, g10, g11, g12, g13, g14, g15, g16⟩⟩ := rfl
  have e08 : setField ⟨ridn, rchk, ⟨d1, d2, d3, d4, d5, d6, g7, g8, g9, g10, g11, g12, g13, g14, g15, g16⟩⟩ 8 (Val.vr d7) = ⟨ridn, rchk, ⟨d1, d2, d3, d4, d5, d6, d7, g8, g9, g10, g11, g12, g13, g14, g15, g16⟩⟩ := rfl
  have e09 : setField ⟨ridn, rchk, ⟨d1, d2, d3, d4, d5, d6, d7, g8, g9, g10, g11, g12, g13, g14, g15, g16⟩⟩ 9 (Val.vr d8) = ⟨ridn, rchk, ⟨d1, d2, d3, d4, d5, d6, d7, d8, g9, g10, g11, g12, g13, g14, g15, g16⟩⟩ := rfl
  have e10 : setField ⟨ridn, rchk, ⟨d1, d2, d3, d4, d5, d6, d7, d8, g9, g10, g11, g12, g13, g14, g15, g16⟩⟩ 10 (Val.vr d9) = ⟨ridn, rchk, ⟨d1, d2, d3, d4, d5, d6, d7, d8, d9, g10, g11, g12, g13, g14, g15, g16⟩⟩ := rfl
  have e11 : setField ⟨ridn, rchk, ⟨d1, d2, d3, d4, d5, d6, d7, d8, d9, g10, g11, g12, g13, g14, g15, g16⟩⟩ 11 (Val.vr d10) = ⟨ridn, rchk, ⟨d1, d2, d3, d4, d5, d6, d7, d8, d9, d10, g11, g12, g13, g14, g15, g16⟩⟩ := rfl
  have e12 : setField ⟨ridn, rchk, ⟨d1, d2, d3, d4, d5, d6, d7, d8, d9, d10, g11, g12, g13, g14, g15, g16⟩⟩ 12 (Val.vr d11) = ⟨ridn, rchk, ⟨d1, d2, d3, d4, d5, d6, d7, d8, d9, d10, d11, g12, g13, g14, g15, g16⟩⟩ := rfl
  have e13 : setField ⟨ridn, rchk, ⟨d1, d2, d3, d4, d5, d6, d7, d8, d9, d10, d11, g12, g13, g14, g15, g16⟩⟩ 13 (Val.vr d12) = ⟨ridn, rchk, ⟨d1, d2, d3, d4, d5, d6, d7, d8, d9, d10, d11, d12, g13, g14, g15, g16⟩⟩ := rfl
  have e14 : setField ⟨ridn, rchk, ⟨d1, d2, d3, d4, d5, d6, d7, d8, d9, d10, d11, d12, g13, g14, g15, g16⟩⟩ 14 (Val.vr d13) = ⟨ridn, rchk, ⟨d1, d2, d3, d4, d5, d6, d7, d8, d9, d10, d11, d12, d13, g14, g15, g16⟩⟩ := rfl
  have e15 : setField ⟨ridn, rchk, ⟨d1, d2, d3, d4, d5, d6, d7, d8, d9, d10, d11, d12, d13, g14, g15, g16⟩⟩ 15 (Val.vr d14) = ⟨ridn, rchk, ⟨d1, d2, d3, d4, d5, d6, d7, d8, d9, d10, d11, d12, d13, d14, g15, g16⟩⟩ := rfl
  have e16 : setField ⟨ridn, rchk, ⟨d1, d2, d3, d4, d5, d6, d7, d8, d9, d10, d11, d12, d13, d14, g15, g16⟩⟩ 16 (Val.vi d15) = ⟨ridn, rchk, ⟨d1, d2, d3, d4, d5, d6, d7, d8, d9, d10, d11, d12, d13, d14, d15, g16⟩⟩ := rfl
  have e17 : setField ⟨ridn, rchk, ⟨d1, d2, d3, d4, d5, d6, d7, d8, d9, d10, d11, d12, d13, d14, d15, g16⟩⟩ 17 (Val.vs d16) = ⟨ridn, rchk, ⟨d1, d2, d3, d4, d5, d6, d7, d8, d9, d10, d11, d12, d13, d14, d15, d16⟩⟩ := rfl
  rw [e02, e03, e04, e05, e06, e07, e08, e09, e10, e11, e12, e13, e14, e15, e16, e17]

/-! ### The pairing invariant between the two tables -/

/-- The `(idn, tool-number)` projection of the offsets table. -/
def pairsO (l : List OffsetRow) : List (Int × Int) :=
  l.map (fun r => (r.idn, r.fields.tool))

/-- The `(idn, TOOL)` projection of the tools table. -/
def pairsT (l : List ToolRow) : List (Int × Int) :=
  l.map (fun r => (r.idn, r.tool))

/-- The two tables are row-for-row paired: the rows at each position carry
the same surrogate id and the same tool number.  This is the registry
well-formedness the widget maintains (it always inserts and removes rows of
the two tables together, at the same position). -/
def Synced (s : DbState) : Prop := pairsO s.offsets = pairsT s.tools

theorem Synced.tool_maps {s : DbState} (h : Synced s) :
    s.offsets.map (fun r => r.fields.tool) = s.tools.map (fun r => r.tool) := by
  have := congrArg (List.map Prod.snd) h
  simpa [pairsO, pairsT, List.map_map, Function.comp] using this

theorem updateStep_synced {acc : DbState} {line : ToolLine} (h : Synced acc) :
    Synced (updateStep acc line) := by
  unfold updateStep
  cases hidx : get_index acc.offsets line.tool with
  | none =>
      simp only [hidx]
      unfold Synced pairsO pairsT at h
      simp [Synced, addrow, pairsO, pairsT, h]
  | some row =>
      simp only [hidx]
      obtain ⟨r, hr, hpr⟩ := firstIdx?_getElem hidx
      have ht : r.fields.tool = line.tool := by simpa using hpr
      have hmem : (List.map (fun r : OffsetRow => (r.idn, r.fields.tool))
          acc.offsets)[row]? = some (r.idn, line.tool) := by
        simp [List.getElem?_map, hr, ht]
      unfold Synced pairsO pairsT at h ⊢
      simp only
      rw [update_row_eq line hr, List.map_set]
      show (List.map (fun r : OffsetRow => (r.idn, r.fields.tool))
          acc.offsets).set row (r.idn, line.tool) = _
      rw [set_self_of_getElem? hmem]
      exact h

theorem updateStep_tool_mem (acc : DbState) (line : ToolLine) (t : Int) :
    t ∈ (updateStep acc line).offsets.map (fun r => r.fields.tool) ↔
      t ∈ acc.offsets.map (fun r => r.fields.tool) ∨ t = line.tool := by
  unfold updateStep
  cases hidx : get_index acc.offsets line.tool with
  | none =>
      simp only [hidx]
      simp [addrow]
  | some row =>
      simp only [hidx]
      obtain ⟨r, hr, hpr⟩ := firstIdx?_getElem hidx
      have ht : r.fields.tool = line.tool := by simpa using hpr
      have hmem : line.tool ∈ acc.offsets.map (fun r => r.fields.tool) := by
        rw [← ht]
        exact List.mem_map_of_mem _ (List.getElem?_mem hr)
      rw [update_row_eq line hr, List.map_set]
      have hsame : (acc.offsets.map (fun r => r.fields.tool))[row]? = some line.tool := by
        simp [List.getElem?_map, hr, ht]
      show t ∈ (acc.offsets.map (fun r => r.fields.tool)).set row line.tool ↔ _
      rw [set_self_of_getElem? hsame]
      constructor
      · exact fun hm => Or.inl hm
      · rintro (hm | rfl)
        · exact hm
        · exact hmem

theorem updateStep_tool_list (acc : DbState) (line : ToolLine) :
    (updateStep acc line).tool_list = acc.tool_list ++ [line.tool] := by
  unfold updateStep
  cases hidx : get_index acc.offsets line.tool <;> simp [hidx, addrow]

theorem foldl_updateStep_synced {acc : DbState} (arr : List ToolLine)
    (h : Synced acc) : Synced (arr.foldl updateStep acc) := by
  induction arr generalizing acc with
  | nil => exact h
  | cons a arr ih => exact ih (updateStep_synced h)

theorem foldl_updateStep_tool_list (arr : List ToolLine) (acc : DbState) :
    (arr.foldl updateStep acc).tool_list =
      acc.tool_list ++ arr.map (fun d => d.tool) := by
  induction arr generalizing acc with
  | nil => simp
  | cons a arr ih =>
      simp only [List.foldl_cons, List.map_cons]
      rw [ih, updateStep_tool_list]
      simp

theorem foldl_updateStep_tool_mem (arr : List ToolLine) (acc : DbState) (t : Int) :
    t ∈ (arr.foldl updateStep acc).offsets.map (fun r => r.fields.tool) ↔
      t ∈ acc.offsets.map (fun r => r.fields.tool) ∨
        t ∈ arr.map (fun d => d.tool) := by
  induction arr generalizing acc with
  | nil => simp
  | cons a arr ih =>
      simp only [List.foldl_cons, List.map_cons, List.mem_cons]
      rw [ih, updateStep_tool_mem]
      tauto

/-! ### The deletion pass -/

theorem map_filter_eq {α β : Type} (f : α → β) (p : β → Bool) (l : List α) :
    (l.filter (fun a => p (f a))).map f = (l.map f).filter p := by
  induction l with
  | nil => rfl
  | cons x xs ih =>
      by_cases h : p (f x) = true
      · simp [List.filter_cons, h, ih]
      · simp only [Bool.not_eq_true] at h
        simp [List.filter_cons, h, ih]

theorem map_eraseIdx {α β : Type} (f : α → β) (l : List α) (i : Nat) :
    (l.eraseIdx i).map f = (l.map f).eraseIdx i := by
  induction l generalizing i with
  | nil => simp
  | cons x xs ih =>
      cases i with
      | zero => simp [List.eraseIdx]
      | succ n => simp [List.eraseIdx, ih]

theorem delrow_synced {s : DbState} {t : Int} (h : Synced s) :
    Synced (delrow s t) := by
  unfold delrow
  cases hidx : get_index s.offsets t with
  | none => exact h
  | some row =>
      unfold Synced pairsO pairsT at h ⊢
      simp only
      rw [map_eraseIdx, map_eraseIdx, h]

theorem delrow_map_tool (s : DbState) (t : Int) :
    (delrow s t).offsets.map (fun r => r.fields.tool) =
      (s.offsets.map (fun r => r.fields.tool)).erase t := by
  unfold delrow
  cases hidx : get_index s.offsets t with
  | none =>
      simp only
      rw [List.erase_of_not_mem (not_mem_map_of_firstIdx?_none hidx)]
  | some row =>
      simp only
      exact eraseIdx_map_of_firstIdx? hidx

theorem foldl_delrow_synced {s : DbState} (ts : List Int) (h : Synced s) :
    Synced (ts.foldl delrow s) := by
  induction ts generalizing s with
  | nil => exact h
  | cons a ts ih => exact ih (delrow_synced h)

theorem foldl_delrow_bag (ts : List Int) (s : DbState) :
    (((ts.foldl delrow s).offsets.map (fun r => r.fields.tool)) : Multiset Int) =
      ((s.offsets.map (fun r => r.fields.tool)) : Multiset Int) -
        (ts : Multiset Int) := by
  induction ts generalizing s with
  | nil => simp
  | cons a ts ih =>
      simp only [List.foldl_cons]
      rw [ih, ← Multiset.cons_coe, Multiset.sub_cons]
      congr 1
      rw [delrow_map_tool, ← Multiset.coe_erase]

/-- After the deletion pass over any list carrying the same tool numbers
(with multiplicity) as the collected delete list, a tool number is present
exactly when it was present before and is contained in `tool_list`. -/
theorem delete_pass_mem (s1 : DbState) (t : Int) (dl : List Int)
    (hdl : (dl : Multiset Int) =
      (((s1.offsets.filter
          (fun r => !(s1.tool_list.contains r.fields.tool))).map
            (fun r => r.fields.tool)) : Multiset Int)) :
    t ∈ (dl.foldl delrow s1).offsets.map (fun r => r.fields.tool) ↔
      (t ∈ s1.offsets.map (fun r => r.fields.tool) ∧ t ∈ s1.tool_list) := by
  set bag0 : List Int := s1.offsets.map (fun r => r.fields.tool) with hbag0
  set delete_list : List Int :=
    (s1.offsets.filter
      (fun r => !(s1.tool_list.contains r.fields.tool))).map
        (fun r => r.fields.tool) with hdel
  rw [← Multiset.mem_coe, foldl_delrow_bag, hdl, ← hbag0]
  by_cases ht : t ∈ s1.tool_list
  · have hnotdel : t ∉ delete_list := by
      intro hmem
      rw [hdel] at hmem
      obtain ⟨r, hrmem, rfl⟩ := List.mem_map.mp hmem
      have hside := (List.mem_filter.mp hrmem).2
      have : r.fields.tool ∉ s1.tool_list := by simpa using hside
      exact this ht
    have hcnt : Multiset.count t (delete_list : Multiset Int) = 0 := by
      rw [Multiset.coe_count]
      exact List.count_eq_zero.mpr hnotdel
    constructor
    · intro hm
      refine ⟨?_, ht⟩
      have := Multiset.count_pos.mpr hm
      rw [Multiset.count_sub, hcnt] at this
      simp only [Nat.sub_zero] at this
      exact Multiset.mem_coe.mp (Multiset.count_pos.mp this)
    · rintro ⟨hm, -⟩
      rw [← Multiset.count_pos, Multiset.count_sub, hcnt]
      simp only [Nat.sub_zero]
      rw [Multiset.count_pos, Multiset.mem_coe]
      exact hm
  · have hcnt : Multiset.count t (delete_list : Multiset Int) =
        Multiset.count t (bag0 : Multiset Int) := by
      rw [Multiset.coe_count, Multiset.coe_count, hdel, hbag0]
      have hmf : (s1.offsets.filter
          (fun r => !(s1.tool_list.contains r.fields.tool))).map
            (fun r => r.fields.tool) =
          (s1.offsets.map (fun r => r.fields.tool)).filter
            (fun x => !(s1.tool_list.contains x)) :=
        map_filter_eq (fun r => r.fields.tool)
          (fun x => !(s1.tool_list.contains x)) s1.offsets
      rw [hmf]
      refine List.count_filter ?_
      simpa using ht
    constructor
    · intro hm
      have := Multiset.count_pos.mpr hm
      rw [Multiset.count_sub, hcnt] at this
      omega
    · rintro ⟨-, hmem⟩
      exact absurd hmem ht
/-! ### Reconciliation: the main lemmas about `update` -/

theorem delrow_tool_list (s : DbState) (t : Int) :
    (delrow s t).tool_list = s.tool_list := by
  unfold delrow
  cases get_index s.offsets t <;> simp

theorem delrow_nextId (s : DbState) (t : Int) :
    (delrow s t).nextId = s.nextId := by
  unfold delrow
  cases get_index s.offsets t <;> simp

theorem update_synced {s : DbState} (arr : List ToolLine) (h : Synced s) :
    Synced (update s arr) := by
  simp only [update]
  apply foldl_delrow_synced
  apply foldl_updateStep_synced
  exact h

theorem update_offsets_tool_mem (s : DbState) (arr : List ToolLine) (t : Int) :
    t ∈ (update s arr).offsets.map (fun r => r.fields.tool) ↔
      t ∈ arr.map (fun d => d.tool) := by
  have htl : (arr.foldl updateStep { s with tool_list := [] }).tool_list =
      arr.map (fun d => d.tool) := by
    rw [foldl_updateStep_tool_list]
    rfl
  have hmem := foldl_updateStep_tool_mem arr { s with tool_list := [] } t
  simp only [update]
  set s1 := arr.foldl updateStep { s with tool_list := [] } with hs1
  set dl := (s1.offsets.filter
      (fun r => !(s1.tool_list.contains r.fields.tool))).map
        (fun r => r.fields.tool) with hdl
  have hfin : ∀ dl' : List Int, (dl' : Multiset Int) = (dl : Multiset Int) →
      (t ∈ (dl'.foldl delrow s1).offsets.map (fun r => r.fields.tool) ↔
        t ∈ arr.map (fun d => d.tool)) := by
    intro dl' hdl'
    rw [delete_pass_mem s1 t dl' (by rw [hdl', hdl]), hmem, htl]
    constructor
    · rintro ⟨-, hr⟩
      exact hr
    · intro hr
      exact ⟨Or.inr hr, hr⟩
  by_cases hlen : 1 < dl.length
  · rw [if_pos hlen]
    exact hfin dl.reverse (Multiset.coe_reverse dl)
  · rw [if_neg hlen]
    exact hfin dl rfl

theorem update_tools_tool_mem {s : DbState} (arr : List ToolLine) (t : Int)
    (h : Synced s) :
    t ∈ (update s arr).tools.map (fun r => r.tool) ↔
      t ∈ arr.map (fun d => d.tool) := by
  rw [← (update_synced arr h).tool_maps]
  exact update_offsets_tool_mem s arr t

/-- A one-row concrete tool line used by the witnesses. -/
def exLine : ToolLine :=
  { tool := 1, pocket := 1, x := 0, y := 0, z := 0, a := 0, b := 0, c := 0,
    u := 0, v := 0, w := 0, diameter := 0, i := 0, j := 0, q := 0,
    comment := "New tool" }

/-- An empty registry (fresh database) used by the witnesses. -/
def exDb : DbState :=
  { offsets := [], tools := [], nextId := 1, tool_list := [],
    metric_display := true }

/-- C1: for every authoritative tool list and every starting registry state
(with its two tables row-for-row paired, as the widget maintains), after one
`MyOffsetModel.update` call the set of tool numbers in the offsets table and
the set in the tools table each coincide exactly with the set of tool
numbers of the authoritative list, and the tables remain row-for-row paired
by shared surrogate id. -/
theorem c1_reconcile_tool_sets (s : DbState) (arr : List ToolLine)
    (h : Synced s) :
    (∀ t : Int, t ∈ (update s arr).offsets.map (fun r => r.fields.tool) ↔
        t ∈ arr.map (fun d => d.tool)) ∧
    (∀ t : Int, t ∈ (update s arr).tools.map (fun r => r.tool) ↔
        t ∈ arr.map (fun d => d.tool)) ∧
    Synced (update s arr) :=
  ⟨fun t => update_offsets_tool_mem s arr t,
   fun t => update_tools_tool_mem arr t h,
   update_synced arr h⟩

/-- Witness for C1 at the empty registry and a one-line list. -/
theorem c1_reconcile_tool_sets_witness :
    Synced exDb ∧
      ((∀ t : Int, t ∈ (update exDb [exLine]).offsets.map
            (fun r => r.fields.tool) ↔ t ∈ [exLine].map (fun d => d.tool)) ∧
       (∀ t : Int, t ∈ (update exDb [exLine]).tools.map (fun r => r.tool) ↔
          t ∈ [exLine].map (fun d => d.tool)) ∧
       Synced (update exDb [exLine])) :=
  ⟨rfl, c1_reconcile_tool_sets exDb [exLine] rfl⟩

/-! ### Idempotence of reconciliation -/

/-- The first offsets row carrying tool number `t` (the row `get_index`
finds), as a value. -/
def FF (l : List OffsetRow) (t : Int) : Option OffsetRow :=
  (l.filter (fun r => r.fields.tool == t)).head?

theorem get_index_FF {l : List OffsetRow} {t : Int} {i : Nat}
    (h : get_index l t = some i) : l[i]? = FF l t :=
  firstIdx?_head_filter h

theorem updateStep_FF_self (acc : DbState) (line : ToolLine) :
    ∃ r', FF (updateStep acc line).offsets line.tool = some r' ∧
      r'.fields = line := by
  unfold updateStep
  cases hidx : get_index acc.offsets line.tool with
  | none =>
      simp only [hidx]
      refine ⟨{ idn := acc.nextId, chk := 0, fields := line }, ?_, rfl⟩
      unfold FF addrow
      simp only
      rw [List.filter_append]
      have hnil : acc.offsets.filter (fun r => r.fields.tool == line.tool) = [] := by
        rw [List.filter_eq_nil_iff]
        intro a ha
        simp [firstIdx?_eq_none_iff.mp hidx a ha]
      rw [hnil]
      simp
  | some row =>
      simp only [hidx]
      obtain ⟨r, hr, hpr⟩ := firstIdx?_getElem hidx
      refine ⟨{ idn := r.idn, chk := r.chk, fields := line }, ?_, rfl⟩
      unfold FF
      rw [update_row_eq line hr]
      exact filter_set_of_firstIdx? hidx (by simp)

theorem updateStep_FF_ne (acc : DbState) (line : ToolLine) (t : Int)
    (hne : line.tool ≠ t) :
    FF (updateStep acc line).offsets t = FF acc.offsets t := by
  unfold updateStep
  cases hidx : get_index acc.offsets line.tool with
  | none =>
      simp only [hidx]
      unfold FF addrow
      simp only
      rw [List.filter_append]
      have hone : ([({ idn := acc.nextId, chk := 0, fields := line } : OffsetRow)]).filter
          (fun r => r.fields.tool == t) = [] := by
        simp [List.filter_cons, hne]
      rw [hone, List.append_nil]
  | some row =>
      simp only [hidx]
      obtain ⟨r, hr, hpr⟩ := firstIdx?_getElem hidx
      have htool : r.fields.tool = line.tool := by simpa using hpr
      unfold FF
      rw [update_row_eq line hr]
      rw [filter_set_of_false hr (by simp [htool, hne]) (by simp [hne])]

theorem foldl_updateStep_FF_ne (arr : List ToolLine) (acc : DbState) (t : Int)
    (h : ∀ l ∈ arr, l.tool ≠ t) :
    FF ((arr.foldl updateStep acc)).offsets t = FF acc.offsets t := by
  induction arr generalizing acc with
  | nil => rfl
  | cons a arr ih =>
      rw [List.foldl_cons, ih (updateStep acc a) (fun l hl => h l (by simp [hl]))]
      exact updateStep_FF_ne acc a t (h a (by simp))

theorem foldl_updateStep_FF (arr : List ToolLine) (acc : DbState)
    (hnd : (arr.map (fun d => d.tool)).Nodup) :
    ∀ line ∈ arr, ∃ r',
      FF ((arr.foldl updateStep acc)).offsets line.tool = some r' ∧
        r'.fields = line := by
  induction arr generalizing acc with
  | nil => simp
  | cons a arr ih =>
      intro line hline
      simp only [List.map_cons, List.nodup_cons] at hnd
      rcases List.mem_cons.mp hline with rfl | hmem
      · have hne : ∀ l ∈ arr, l.tool ≠ line.tool := by
          intro l hl heq
          exact hnd.1 (heq ▸ List.mem_map_of_mem _ hl)
        rw [List.foldl_cons, foldl_updateStep_FF_ne arr _ _ hne]
        exact updateStep_FF_self acc line
      · rw [List.foldl_cons]
        exact ih (updateStep acc a) hnd.2 line hmem

theorem delrow_FF_ne (s : DbState) (tno t : Int) (hne : tno ≠ t) :
    FF (delrow s tno).offsets t = FF s.offsets t := by
  unfold delrow
  cases hidx : get_index s.offsets tno with
  | none => rfl
  | some row =>
      simp only
      obtain ⟨r, hr, hpr⟩ := firstIdx?_getElem hidx
      have htool : r.fields.tool = tno := by simpa using hpr
      unfold FF
      rw [filter_eraseIdx_of_false hr (by simp [htool, hne])]

theorem foldl_delrow_FF (ts : List Int) (s : DbState) (t : Int)
    (h : ∀ x ∈ ts, x ≠ t) :
    FF ((ts.foldl delrow s)).offsets t = FF s.offsets t := by
  induction ts generalizing s with
  | nil => rfl
  | cons a ts ih =>
      rw [List.foldl_cons, ih (delrow s a) (fun x hx => h x (by simp [hx]))]
      exact delrow_FF_ne s a t (h a (by simp))

theorem foldl_delrow_tool_list (ts : List Int) (s : DbState) :
    (ts.foldl delrow s).tool_list = s.tool_list := by
  induction ts generalizing s with
  | nil => rfl
  | cons a ts ih => rw [List.foldl_cons, ih, delrow_tool_list]

theorem update_tool_list_eq (s : DbState) (arr : List ToolLine) :
    (update s arr).tool_list = arr.map (fun d => d.tool) := by
  simp only [update]
  rw [foldl_delrow_tool_list, foldl_updateStep_tool_list]
  rfl

theorem update_rows_in_tool_list (s : DbState) (arr : List ToolLine) :
    ∀ r ∈ (update s arr).offsets, r.fields.tool ∈ (update s arr).tool_list := by
  intro r hr
  have hm : r.fields.tool ∈ (update s arr).offsets.map (fun x => x.fields.tool) :=
    List.mem_map_of_mem _ hr
  rw [update_offsets_tool_mem] at hm
  rw [update_tool_list_eq]
  exact hm

theorem update_FF (s : DbState) (arr : List ToolLine)
    (hnd : (arr.map (fun d => d.tool)).Nodup) :
    ∀ line ∈ arr, ∃ r',
      FF (update s arr).offsets line.tool = some r' ∧ r'.fields = line := by
  intro line hline
  have hlt : line.tool ∈ (arr.foldl updateStep { s with tool_list := [] }).tool_list := by
    rw [foldl_updateStep_tool_list]
    simpa using List.mem_map_of_mem _ hline
  simp only [update]
  set s1 := arr.foldl updateStep { s with tool_list := [] } with hs1
  set dl := (s1.offsets.filter
      (fun r => !(s1.tool_list.contains r.fields.tool))).map
        (fun r => r.fields.tool) with hdl
  have hdlne : ∀ x ∈ dl, x ≠ line.tool := by
    intro x hx heq
    rw [hdl] at hx
    obtain ⟨r, hrmem, rfl⟩ := List.mem_map.mp hx
    have hside := (List.mem_filter.mp hrmem).2
    have : r.fields.tool ∉ s1.tool_list := by simpa using hside
    exact this (heq ▸ hlt)
  have hres : ∀ dl' : List Int, (∀ x ∈ dl', x ≠ line.tool) →
      ∃ r', FF ((dl'.foldl delrow s1)).offsets line.tool = some r' ∧
        r'.fields = line := by
    intro dl' hne
    rw [foldl_delrow_FF dl' s1 line.tool hne]
    exact foldl_updateStep_FF arr _ hnd line hline
  by_cases hlen : 1 < dl.length
  · rw [if_pos hlen]
    exact hres dl.reverse (fun x hx => hdlne x (List.mem_reverse.mp hx))
  · rw [if_neg hlen]
    exact hres dl hdlne

theorem foldl_updateStep_id (arr : List ToolLine) (acc : DbState)
    (hFF : ∀ line ∈ arr, ∃ r',
      FF acc.offsets line.tool = some r' ∧ r'.fields = line) :
    arr.foldl updateStep acc =
      { acc with tool_list := acc.tool_list ++ arr.map (fun d => d.tool) } := by
  induction arr generalizing acc with
  | nil => simp
  | cons a arr ih =>
      obtain ⟨r', hr', hfields⟩ := hFF a (by simp)
      have hstep : updateStep acc a =
          { acc with tool_list := acc.tool_list ++ [a.tool] } := by
        unfold updateStep
        cases hidx : get_index acc.offsets a.tool with
        | none =>
            exfalso
            unfold FF at hr'
            have hnil : acc.offsets.filter (fun r => r.fields.tool == a.tool) = [] := by
              rw [List.filter_eq_nil_iff]
              intro x hx
              simp [firstIdx?_eq_none_iff.mp hidx x hx]
            rw [hnil] at hr'
            simp at hr'
        | some i =>
            simp only [hidx]
            have hget : acc.offsets[i]? = some r' := by
              rw [get_index_FF hidx]
              exact hr'
            rw [update_row_eq a hget, ← hfields]
            rw [show ({ idn := r'.idn, chk := r'.chk, fields := r'.fields } :
              OffsetRow) = r' from rfl]
            rw [set_self_of_getElem? hget]
      rw [List.foldl_cons, hstep,
        ih { acc with tool_list := acc.tool_list ++ [a.tool] }
          (fun line hl => hFF line (by simp [hl]))]
      ext1 <;> simp

/-- C2: reconciliation is idempotent: immediately repeating
`MyOffsetModel.update` with the same authoritative list (whose entries are
keyed by distinct tool numbers) changes nothing — no row is inserted, no row
is deleted, and every stored value is rewritten to the value it already
has. -/
theorem c2_update_idempotent (s : DbState) (arr : List ToolLine)
    (hnd : (arr.map (fun d => d.tool)).Nodup) :
    update (update s arr) arr = update s arr := by
  set s1 := update s arr with hs1
  have hFF : ∀ line ∈ arr, ∃ r',
      FF s1.offsets line.tool = some r' ∧ r'.fields = line :=
    update_FF s arr hnd
  have htl1 : s1.tool_list = arr.map (fun d => d.tool) := update_tool_list_eq s arr
  show update s1 arr = s1
  simp only [update]
  have hid : arr.foldl updateStep { s1 with tool_list := [] } =
      { s1 with tool_list := arr.map (fun d => d.tool) } := by
    rw [foldl_updateStep_id arr { s1 with tool_list := [] }
      (fun line hl => hFF line hl)]
    ext1 <;> simp
  rw [hid]
  have hback : ({ s1 with tool_list := arr.map (fun d => d.tool) } : DbState) = s1 := by
    rw [← htl1]
  rw [hback]
  have hdelnil : (s1.offsets.filter
      (fun r => !(s1.tool_list.contains r.fields.tool))).map
        (fun r => r.fields.tool) = ([] : List Int) := by
    rw [List.map_eq_nil_iff, List.filter_eq_nil_iff]
    intro r hr
    have hmem : r.fields.tool ∈ s1.tool_list := update_rows_in_tool_list s arr r hr
    simp [hmem]
  rw [hdelnil]
  simp

/-- Witness for C2 at the empty registry and a one-line list. -/
theorem c2_update_idempotent_witness :
    ((([exLine].map (fun d => d.tool)).Nodup) ∧
      update (update exDb [exLine]) [exLine] = update exDb [exLine]) :=
  ⟨by decide, c2_update_idempotent exDb [exLine] (by decide)⟩

/-! ### Checked-tool exclusivity -/

theorem uncheck_all_not_checked (offsets : List OffsetRow) :
    ∀ r ∈ uncheck_all_tools offsets, (r.chk == 1) = false := by
  intro r hr
  unfold uncheck_all_tools at hr
  obtain ⟨x, hx, rfl⟩ := List.mem_map.mp hr
  by_cases hchk : (x.chk == 1) = true
  · simp [hchk]
  · simp only [Bool.not_eq_true] at hchk
    simp [hchk]

theorem filter_set_singleton {α : Type} {p : α → Bool} {l : List α} {i : Nat}
    {b : α} (hall : ∀ a ∈ l, p a = false) (hi : i < l.length)
    (hb : p b = true) : (l.set i b).filter p = [b] := by
  induction l generalizing i with
  | nil => simp at hi
  | cons x xs ih =>
      cases i with
      | zero =>
          simp only [List.set_cons_zero, List.filter_cons, hb, if_true]
          have : xs.filter p = [] := by
            rw [List.filter_eq_nil_iff]
            intro a ha
            simp [hall a (by simp [ha])]
          rw [this]
      | succ n =>
          simp only [List.set_cons_succ, List.filter_cons,
            hall x (by simp), Bool.false_eq_true, if_false]
          exact ih (fun a ha => hall a (by simp [ha])) (by simpa using hi)

theorem countP_set_le_of_false {α : Type} {p : α → Bool} {l : List α} {i : Nat}
    {a b : α} (ha : l[i]? = some a) (hpb : p b = false) :
    (l.set i b).countP p ≤ l.countP p := by
  induction l generalizing i with
  | nil => simp at ha
  | cons x xs ih =>
      cases i with
      | zero =>
          simp only [List.getElem?_cons_zero, Option.some.injEq] at ha
          simp only [List.set_cons_zero, List.countP_cons, hpb,
            Bool.false_eq_true, if_false]
          omega
      | succ n =>
          simp only [List.getElem?_cons_succ] at ha
          simp only [List.set_cons_succ, List.countP_cons]
          have := ih ha
          omega

theorem updateStep_countChecked (acc : DbState) (line : ToolLine) :
    countChecked (updateStep acc line).offsets = countChecked acc.offsets := by
  unfold updateStep
  cases hidx : get_index acc.offsets line.tool with
  | none =>
      simp only [hidx]
      unfold countChecked addrow
      simp [List.countP_append]
  | some row =>
      simp only [hidx]
      obtain ⟨r, hr, hpr⟩ := firstIdx?_getElem hidx
      unfold countChecked
      rw [update_row_eq line hr]
      exact countP_set_of_eq hr rfl

theorem foldl_updateStep_countChecked (arr : List ToolLine) (acc : DbState) :
    countChecked (arr.foldl updateStep acc).offsets = countChecked acc.offsets := by
  induction arr generalizing acc with
  | nil => rfl
  | cons a arr ih => rw [List.foldl_cons, ih, updateStep_countChecked]

theorem delrow_countChecked_le (s : DbState) (t : Int) :
    countChecked (delrow s t).offsets ≤ countChecked s.offsets := by
  unfold delrow
  cases get_index s.offsets t with
  | none => exact Nat.le_refl _
  | some row =>
      simp only
      exact countP_eraseIdx_le _ _ _

theorem foldl_delrow_countChecked_le (ts : List Int) (s : DbState) :
    countChecked (ts.foldl delrow s).offsets ≤ countChecked s.offsets := by
  induction ts generalizing s with
  | nil => exact Nat.le_refl _
  | cons a ts ih =>
      rw [List.foldl_cons]
      exact Nat.le_trans (ih (delrow s a)) (delrow_countChecked_le s a)

theorem update_countChecked_le (s : DbState) (arr : List ToolLine) :
    countChecked (update s arr).offsets ≤ countChecked s.offsets := by
  simp only [update]
  refine Nat.le_trans (foldl_delrow_countChecked_le _ _) ?_
  rw [foldl_updateStep_countChecked]

theorem setData_unchecked_countChecked_le (l : List OffsetRow) (j : Nat) :
    countChecked (setData_unchecked l j) ≤ countChecked l := by
  unfold setData_unchecked setCell
  cases hj : l[j]? with
  | none => exact Nat.le_refl _
  | some r =>
      simp only
      exact countP_set_le_of_false hj rfl

/-- C3: checked-tool exclusivity.  Checking any row through
`MyOffsetModel.setData` first unchecks every tool, so afterwards
`list_checked_tools` is exactly the one-element list holding that row's tool
number and exactly one row is checked; moreover no other registry operation
creates checked rows — reconciliation and an uncheck request can only lower
the number of checked rows — so at most one row is checked at any time. -/
theorem c3_checked_exclusive (offsets : List OffsetRow) (i : Nat)
    (h : i < offsets.length) :
    (list_checked_tools (setData_checked offsets i) =
      [(offsets.get ⟨i, h⟩).fields.tool]) ∧
    countChecked (setData_checked offsets i) = 1 ∧
    (∀ (s : DbState) (arr : List ToolLine),
      countChecked (update s arr).offsets ≤ countChecked s.offsets) ∧
    (∀ (l : List OffsetRow) (j : Nat),
      countChecked (setData_unchecked l j) ≤ countChecked l) := by
  have hulen : (uncheck_all_tools offsets).length = offsets.length := by
    unfold uncheck_all_tools
    simp
  have hu : (uncheck_all_tools offsets)[i]? =
      some (if (offsets.get ⟨i, h⟩).chk == 1
        then { offsets.get ⟨i, h⟩ with chk := 0 } else offsets.get ⟨i, h⟩) := by
    unfold uncheck_all_tools
    rw [List.getElem?_map]
    rw [List.getElem?_eq_getElem h]
    rfl
  set a := (if (offsets.get ⟨i, h⟩).chk == 1
    then { offsets.get ⟨i, h⟩ with chk := 0 } else offsets.get ⟨i, h⟩) with ha
  have hafields : a.fields = (offsets.get ⟨i, h⟩).fields := by
    rw [ha]
    by_cases hchk : ((offsets.get ⟨i, h⟩).chk == 1) = true
    · rw [if_pos hchk]
    · rw [if_neg hchk]
  have hset : setData_checked offsets i =
      (uncheck_all_tools offsets).set i { a with chk := 1 } := by
    unfold setData_checked setCell
    rw [hu]
    rfl
  have hfil : ((uncheck_all_tools offsets).set i { a with chk := 1 }).filter
      (fun r => r.chk == 1) = [{ a with chk := 1 }] :=
    filter_set_singleton (uncheck_all_not_checked offsets)
      (by rw [hulen]; exact h) rfl
  refine ⟨?_, ?_, update_countChecked_le, setData_unchecked_countChecked_le⟩
  · unfold list_checked_tools
    rw [hset, hfil]
    simp [hafields]
  · unfold countChecked
    rw [hset, List.countP_eq_length_filter, hfil]
    rfl

/-- Two concrete offsets rows (row 0 checked, row 1 unchecked) used by the
C3 witness. -/
def exOffsets : List OffsetRow :=
  [{ idn := 5, chk := 1, fields := exLine },
   { idn := 6, chk := 0, fields := { exLine with tool := 9 } }]

/-- Witness for C3: checking row 1 of a registry whose row 0 is checked. -/
theorem c3_checked_exclusive_witness :
    1 < exOffsets.length ∧
    ((list_checked_tools (setData_checked exOffsets 1) =
        [(exOffsets.get ⟨1, by decide⟩).fields.tool]) ∧
      countChecked (setData_checked exOffsets 1) = 1 ∧
      (∀ (s : DbState) (arr : List ToolLine),
        countChecked (update s arr).offsets ≤ countChecked s.offsets) ∧
      (∀ (l : List OffsetRow) (j : Nat),
        countChecked (setData_unchecked l j) ≤ countChecked l)) :=
  ⟨by decide, c3_checked_exclusive exOffsets 1 (by decide)⟩

/-! ### Next available tool number -/

theorem find?_eq_some_least {α : Type} (p : α → Bool) (l : List α) (a : α)
    (h : l.find? p = some a) :
    ∃ i : Nat, l[i]? = some a ∧ p a = true ∧
      ∀ (j : Nat) (b : α), j < i → l[j]? = some b → p b = false := by
  induction l generalizing a with
  | nil => simp at h
  | cons x xs ih =>
      by_cases hp : p x = true
      · rw [List.find?_cons_of_pos _ hp] at h
        obtain rfl : x = a := by simpa using h
        exact ⟨0, by simp, hp, fun j b hj => by omega⟩
      · simp only [Bool.not_eq_true] at hp
        rw [List.find?_cons_of_neg _ (by simp [hp])] at h
        obtain ⟨i, hi, hpa, hfirst⟩ := ih a h
        refine ⟨i + 1, ?_, hpa, ?_⟩
        · simpa using hi
        intro j b hj hb
        cases j with
        | zero =>
            simp only [List.getElem?_cons_zero, Option.some.injEq] at hb
            exact hb ▸ hp
        | succ m =>
            simp only [List.getElem?_cons_succ] at hb
            exact hfirst m b (by omega) hb

/-- Full specification of `get_next_available` when some slot in 0..99 is
free: the result is the least free slot. -/
theorem get_next_available_least (l : List Int)
    (hex : ∃ n : Nat, n < 100 ∧ (n : Int) ∉ l) :
    ∃ n : Nat, get_next_available l = (n : Int) ∧ n < 100 ∧ (n : Int) ∉ l ∧
      ∀ k : Nat, k < n → (k : Int) ∈ l := by
  obtain ⟨m, hm, hmnot⟩ := hex
  cases hfind : (List.range 100).find? (fun n : Nat => !(l.contains (n : Int))) with
  | none =>
      exfalso
      rw [List.find?_eq_none] at hfind
      have := hfind m (List.mem_range.mpr hm)
      simp only [Bool.not_eq_true, Bool.not_eq_false] at this
      exact hmnot (by simpa using this)
  | some n =>
      obtain ⟨i, hi, hp, hfirst⟩ := find?_eq_some_least _ _ _ hfind
      have hilt : i < 100 := by
        have := (List.getElem?_eq_some.mp hi).1
        simpa using this
      have hni : n = i := by
        rw [List.getElem?_range hilt] at hi
        simpa using hi.symm
      subst hni
      refine ⟨n, ?_, hilt, ?_, ?_⟩
      · unfold get_next_available
        rw [hfind]
      · have : (l.contains (n : Int)) = false := by simpa using hp
        simpa using this
      · intro k hk
        have hk100 : k < 100 := by omega
        have := hfirst k k hk (List.getElem?_range hk100)
        simp only [Bool.not_eq_false] at this
        simpa using this

/-- C7: whenever some integer in 0..99 is absent from the known tool-number
set, `get_next_available` returns the smallest such absent integer (the scan
runs over 0..99 in order and stops at the first integer not present). -/
theorem c7_next_available_least (l : List Int)
    (hex : ∃ n : Nat, n < 100 ∧ (n : Int) ∉ l) :
    ∃ n : Nat, get_next_available l = (n : Int) ∧ n < 100 ∧ (n : Int) ∉ l ∧
      ∀ k : Nat, k < n → (k : Int) ∈ l :=
  get_next_available_least l hex

/-- Witness for C7, including the spec scenario `{0,1,2,4} ↦ 3`. -/
theorem c7_next_available_least_witness :
    (∃ n : Nat, n < 100 ∧ (n : Int) ∉ ([0, 1, 2, 4] : List Int)) ∧
    (∃ n : Nat, get_next_available [0, 1, 2, 4] = (n : Int) ∧ n < 100 ∧
      (n : Int) ∉ ([0, 1, 2, 4] : List Int) ∧
      ∀ k : Nat, k < n → (k : Int) ∈ ([0, 1, 2, 4] : List Int)) ∧
    get_next_available [0, 1, 2, 4] = 3 :=
  ⟨⟨3, by decide⟩, c7_next_available_least [0, 1, 2, 4] ⟨3, by decide⟩,
    by decide⟩

/-- The fully occupied registry, tools 0..99 all present. -/
def fullHouse : List Int := (List.range 100).map (fun n => (n : Int))

/-- C8 counterexample: when every slot 0..99 is taken, the scan's loop
variable is left at 99 and returned, and 99 IS a member of the known set —
so `get_next_available` does not always return a fresh number. -/
theorem c8_counterexample :
    get_next_available fullHouse = 99 ∧ (99 : Int) ∈ fullHouse := by
  constructor
  · decide
  · decide

/-- C8 amended: `get_next_available` never returns a number already in the
known set, provided some integer in 0..99 is absent (when all hundred slots
are occupied it returns 99, which is in the set). -/
theorem c8_next_available_fresh (l : List Int)
    (hex : ∃ n : Nat, n < 100 ∧ (n : Int) ∉ l) :
    get_next_available l ∉ l := by
  obtain ⟨n, heq, -, hnot, -⟩ := get_next_available_least l hex
  rw [heq]
  exact hnot

/-- Witness for the amended C8. -/
theorem c8_next_available_fresh_witness :
    (∃ n : Nat, n < 100 ∧ (n : Int) ∉ ([0, 1, 2] : List Int)) ∧
    get_next_available [0, 1, 2] ∉ ([0, 1, 2] : List Int) :=
  ⟨⟨3, by decide⟩, c8_next_available_fresh [0, 1, 2] ⟨3, by decide⟩⟩

/-! ### The usage-timer heartbeat -/

theorem tool_timer_db (s : ToolDatabase) : (tool_timer s).db = s.db := by
  unfold tool_timer
  by_cases h : s.timer_tenths = 9
  · cases hr : s.timer.running <;> simp [h, hr]
  · have h' : ¬(s.timer_tenths + 1 = 10) := by omega
    simp [h, h']

theorem tool_timer_running (s : ToolDatabase) :
    (tool_timer s).timer.running = s.timer.running := by
  unfold tool_timer
  by_cases h : s.timer_tenths = 9
  · cases hr : s.timer.running <;> simp [h, hr]
  · have h' : ¬(s.timer_tenths + 1 = 10) := by omega
    simp [h, h']

theorem tool_timer_tool (s : ToolDatabase) :
    (tool_timer s).timer.tool = s.timer.tool := by
  unfold tool_timer
  by_cases h : s.timer_tenths = 9
  · cases hr : s.timer.running <;> simp [h, hr]
  · have h' : ¬(s.timer_tenths + 1 = 10) := by omega
    simp [h, h']

theorem tool_timer_current_row (s : ToolDatabase) :
    (tool_timer s).current_row = s.current_row := by
  unfold tool_timer
  by_cases h : s.timer_tenths = 9
  · cases hr : s.timer.running <;> simp [h, hr]
  · have h' : ¬(s.timer_tenths + 1 = 10) := by omega
    simp [h, h']

theorem tool_timer_tenths (s : ToolDatabase) :
    (tool_timer s).timer_tenths =
      if s.timer_tenths + 1 = 10 then 0 else s.timer_tenths + 1 := by
  unfold tool_timer
  by_cases h : s.timer_tenths = 9
  · cases hr : s.timer.running <;> simp [h, hr]
  · have h' : ¬(s.timer_tenths + 1 = 10) := by omega
    simp [h, h']

theorem tool_timer_time_running (s : ToolDatabase)
    (hr : s.timer.running = true) :
    (tool_timer s).timer.time =
      if s.timer_tenths + 1 = 10 then s.timer.time + 1 else s.timer.time := by
  unfold tool_timer
  by_cases h : s.timer_tenths = 9
  · simp [h, hr]
  · have h' : ¬(s.timer_tenths + 1 = 10) := by omega
    simp [h, h']

/-- Effect of `k` heartbeat ticks while the timer is running: the tables,
the running flag and the tool number are untouched; the tenth counter
advances modulo 10; and the second counter gains one second for every tenth
tick completed. -/
theorem tool_timer_iterate (k : Nat) (s : ToolDatabase)
    (ht : s.timer_tenths < 10) (hr : s.timer.running = true) :
    (tool_timer^[k] s).db = s.db ∧
    (tool_timer^[k] s).timer.running = true ∧
    (tool_timer^[k] s).timer.tool = s.timer.tool ∧
    (tool_timer^[k] s).timer_tenths = (s.timer_tenths + k) % 10 ∧
    (tool_timer^[k] s).timer.time =
      s.timer.time + (((s.timer_tenths + k) / 10 : Nat) : Int) := by
  induction k with
  | zero =>
      refine ⟨rfl, hr, rfl, ?_, ?_⟩
      · simpa using (Nat.mod_eq_of_lt ht).symm
      · have h0 : (s.timer_tenths + 0) / 10 = 0 := Nat.div_eq_of_lt (by omega)
        rw [h0]
        simp
  | succ k ih =>
      obtain ⟨hdb, hrun, htool, hten, htime⟩ := ih
      rw [Function.iterate_succ_apply']
      refine ⟨?_, ?_, ?_, ?_, ?_⟩
      · rw [tool_timer_db, hdb]
      · rw [tool_timer_running, hrun]
      · rw [tool_timer_tool, htool]
      · rw [tool_timer_tenths, hten]
        by_cases h : (s.timer_tenths + k) % 10 + 1 = 10
        · rw [if_pos h]
          omega
        · rw [if_neg h]
          omega
      · rw [tool_timer_time_running _ hrun, hten, htime]
        by_cases h : (s.timer_tenths + k) % 10 + 1 = 10
        · rw [if_pos h]
          have hdiv : (s.timer_tenths + (k + 1)) / 10 =
              (s.timer_tenths + k) / 10 + 1 := by omega
          rw [show s.timer_tenths + Nat.succ k = s.timer_tenths + (k + 1) from rfl,
            hdiv]
          push_cast
          ring
        · rw [if_neg h]
          have hdiv : (s.timer_tenths + (k + 1)) / 10 =
              (s.timer_tenths + k) / 10 := by omega
          rw [show s.timer_tenths + Nat.succ k = s.timer_tenths + (k + 1) from rfl,
            hdiv]

/-! ### Starting and stopping the timer -/

theorem ratFloor_eq_floor (q : Rat) : ratFloor q = ⌊q⌋ := by
  rw [Rat.floor_def, ratFloor, Int.fdiv_eq_ediv _ (by exact_mod_cast Nat.zero_le q.den)]

theorem pyInt_intCast (z : Int) : pyInt ((z : Int) : Rat) = z := by
  unfold pyInt
  rw [Rat.num_intCast, Rat.den_intCast]
  simp

theorem start_tool_timer_found (s : ToolDatabase) (r : Nat) (tr : ToolRow)
    (htool : s.timer.tool ≠ 0)
    (hidx : get_index s.db.offsets s.timer.tool = some r)
    (htr : s.db.tools[r]? = some tr) :
    start_tool_timer s =
      { s with timer := { running := true,
                          tool := s.timer.tool,
                          time := pyInt (pyRound3 tr.time * 60) } } := by
  have hbeq : (s.timer.tool == 0) = false := by simpa using htool
  simp only [start_tool_timer, hbeq, Bool.false_eq_true, if_false, hidx, htr]

theorem start_tool_timer_notfound (s : ToolDatabase)
    (htool : s.timer.tool ≠ 0)
    (hidx : get_index s.db.offsets s.timer.tool = none) :
    start_tool_timer s = { s with timer := { s.timer with running := true } } := by
  have hbeq : (s.timer.tool == 0) = false := by simpa using htool
  simp only [start_tool_timer, hbeq, Bool.false_eq_true, if_false, hidx]

theorem stop_tool_timer_found (s : ToolDatabase) (r : Nat)
    (hrun : s.timer.running = true)
    (hidx : get_index s.db.offsets s.timer.tool = some r) :
    stop_tool_timer s =
      { s with timer := { s.timer with running := false },
               db := { s.db with
                       tools := writeTime s.db.tools r
                         (pyRound3 ((s.timer.time : Int) / 60 : Rat)) } } := by
  simp only [stop_tool_timer, hrun, Bool.not_true, Bool.false_eq_true, if_false, hidx]

/-- C4: with the active tool's stored cumulative time at 5.000 minutes, a
`start_tool_timer`, 120 heartbeat `tool_timer` ticks, and a
`stop_tool_timer` leave the tool's TIME cell holding 5.200 minutes
(the elapsed 312 s divided by 60 and formatted to 3 decimal places,
`"5.200"`, stored back into the REAL column). -/
theorem c4_timer_round_trip (s : ToolDatabase) (r : Nat) (tr : ToolRow)
    (htool : s.timer.tool ≠ 0)
    (hidx : get_index s.db.offsets s.timer.tool = some r)
    (htr : s.db.tools[r]? = some tr)
    (htime : tr.time = 5)
    (hten : s.timer_tenths < 10) :
    ((stop_tool_timer (tool_timer^[120] (start_tool_timer s))).db.tools[r]?).map
      (fun x => x.time) = some ((26 : Rat) / 5) := by
  have h5 : pyRound3 tr.time = 5 := by
    rw [htime]
    unfold pyRound3
    rw [ratFloor_eq_floor]
    norm_num
  have h300 : pyInt (pyRound3 tr.time * 60) = 300 := by
    rw [h5, show ((5 : Rat) * 60) = ((300 : Int) : Rat) by norm_num, pyInt_intCast]
  have hs1 := start_tool_timer_found s r tr htool hidx htr
  rw [h300] at hs1
  have h1run : (start_tool_timer s).timer.running = true := by rw [hs1]
  have h1tool : (start_tool_timer s).timer.tool = s.timer.tool := by rw [hs1]
  have h1time : (start_tool_timer s).timer.time = 300 := by rw [hs1]
  have h1db : (start_tool_timer s).db = s.db := by rw [hs1]
  have h1ten : (start_tool_timer s).timer_tenths = s.timer_tenths := by rw [hs1]
  obtain ⟨h2db, h2run, h2tool, h2ten, h2time⟩ :=
    tool_timer_iterate 120 (start_tool_timer s) (by rw [h1ten]; exact hten) h1run
  have h312 : (tool_timer^[120] (start_tool_timer s)).timer.time = 312 := by
    rw [h2time, h1time, h1ten]
    have hd : (s.timer_tenths + 120) / 10 = 12 := by omega
    rw [hd]
    norm_num
  have hidx2 : get_index (tool_timer^[120] (start_tool_timer s)).db.offsets
      (tool_timer^[120] (start_tool_timer s)).timer.tool = some r := by
    rw [h2db, h1db, h2tool, h1tool]
    exact hidx
  have hs3 := stop_tool_timer_found (tool_timer^[120] (start_tool_timer s)) r
    h2run hidx2
  rw [hs3]
  simp only [h312, h2db, h1db]
  have hqr : pyRound3 (((312 : Int) : Int) / 60 : Rat) = (26 : Rat) / 5 := by
    unfold pyRound3
    rw [ratFloor_eq_floor]
    norm_num
  rw [hqr]
  unfold writeTime
  rw [htr]
  have hrlen : r < s.db.tools.length := (List.getElem?_eq_some.mp htr).1
  rw [List.getElem?_set_self (by simpa using hrlen)]
  rfl

/-- Concrete state for the C4 witness: tool 1 active, its tools row holding
TIME = 5.000 minutes, timer idle at a fresh tenth counter. -/
def exTimerDb : ToolDatabase :=
  { db := { offsets := [{ idn := 1, chk := 0, fields := exLine }],
            tools := [{ idn := 1, tool := 1, time := 5, rpm := 0, cpt := 0,
                        length := 0, flutes := 0, feed := 0, mfg := "",
                        icon := "not_found.png" }],
            nextId := 2, tool_list := [1], metric_display := true },
    timer := { running := false, tool := 1, time := 0 },
    timer_tenths := 0, current_row := none }

/-- Witness for C4 at the concrete one-tool registry. -/
theorem c4_timer_round_trip_witness :
    (exTimerDb.timer.tool ≠ 0 ∧
      get_index exTimerDb.db.offsets exTimerDb.timer.tool = some 0 ∧
      exTimerDb.db.tools[0]?.isSome ∧
      exTimerDb.timer_tenths < 10) ∧
    ((stop_tool_timer (tool_timer^[120] (start_tool_timer exTimerDb))).db.tools[0]?).map
      (fun x => x.time) = some ((26 : Rat) / 5) :=
  ⟨⟨by decide, by decide, by decide, by decide⟩,
    c4_timer_round_trip exTimerDb 0
      { idn := 1, tool := 1, time := 5, rpm := 0, cpt := 0, length := 0,
        flutes := 0, feed := 0, mfg := "", icon := "not_found.png" }
      (by decide) (by decide) (by decide) rfl (by decide)⟩

/-! ### Timer state machine transitions (C5) and the stale-seed case (C10) -/

/-- A concrete running-timer state used by the C5 counterexample. -/
def exRunning : ToolDatabase :=
  { db := exDb, timer := { running := true, tool := 5, time := 100 },
    timer_tenths := 3, current_row := some 0 }

/-- C5 counterexample: a tool-in-spindle-changed event with tool number 0
while the timer is running does NOT stop the timer — `tool_changed(0)` only
clears the highlighted row and returns, leaving `timer_dict['running']`
true, contrary to the claim that the Running → Idle transition is taken. -/
theorem c5_counterexample :
    exRunning.timer.running = true ∧
    (tool_changed exRunning 0 true).timer.running = true ∧
    (tool_changed exRunning 0 false).timer.running = true := by
  refine ⟨rfl, ?_, ?_⟩ <;> decide

/-- C5 amended: while the timer is running, the Running → Idle transition is
taken when run mode ends with the controller still in auto mode
(`interp_state false` under `is_auto_mode`); a tool-change event with tool
number 0 does not touch the timer at all — it only clears `current_row` —
so the timer keeps running in that case. -/
theorem c5_running_to_idle (s : ToolDatabase) (b : Bool)
    (hrun : s.timer.running = true) :
    (interp_state s false true).timer.running = false ∧
    (∀ r : Nat, get_index s.db.offsets s.timer.tool = some r →
      (interp_state s false true).db.tools =
        writeTime s.db.tools r (pyRound3 ((s.timer.time : Int) / 60 : Rat))) ∧
    tool_changed s 0 b = { s with current_row := none } := by
  refine ⟨?_, ?_, ?_⟩
  · show (stop_tool_timer s).timer.running = false
    unfold stop_tool_timer
    rw [hrun]
    simp only [Bool.not_true, Bool.false_eq_true, if_false]
    cases get_index s.db.offsets s.timer.tool <;> rfl
  · intro r hidx
    show (stop_tool_timer s).db.tools = _
    rw [stop_tool_timer_found s r hrun hidx]
  · unfold tool_changed
    simp

/-- Witness for the amended C5 at the concrete running state. -/
theorem c5_running_to_idle_witness :
    exRunning.timer.running = true ∧
    ((interp_state exRunning false true).timer.running = false ∧
      (∀ r : Nat, get_index exRunning.db.offsets exRunning.timer.tool = some r →
        (interp_state exRunning false true).db.tools =
          writeTime exRunning.db.tools r
            (pyRound3 ((exRunning.timer.time : Int) / 60 : Rat))) ∧
      tool_changed exRunning 0 true = { exRunning with current_row := none }) :=
  ⟨rfl, c5_running_to_idle exRunning true rfl⟩

/-- C10: starting the timer for a nonzero tool that has no offsets row sets
`running` without reseeding the elapsed counter: the counter keeps whatever
value it held (e.g. from a previous tool), and subsequent heartbeat ticks
accumulate onto that stale value (10 ticks add one second to it). -/
theorem c10_start_timer_unknown_tool (s : ToolDatabase)
    (htool : s.timer.tool ≠ 0)
    (hidx : get_index s.db.offsets s.timer.tool = none)
    (hten : s.timer_tenths < 10) :
    (start_tool_timer s).timer.running = true ∧
    (start_tool_timer s).timer.time = s.timer.time ∧
    (tool_timer^[10] (start_tool_timer s)).timer.time = s.timer.time + 1 := by
  have hs1 := start_tool_timer_notfound s htool hidx
  have h1run : (start_tool_timer s).timer.running = true := by rw [hs1]
  have h1time : (start_tool_timer s).timer.time = s.timer.time := by rw [hs1]
  have h1ten : (start_tool_timer s).timer_tenths = s.timer_tenths := by rw [hs1]
  refine ⟨h1run, h1time, ?_⟩
  obtain ⟨-, -, -, -, h2time⟩ :=
    tool_timer_iterate 10 (start_tool_timer s) (by rw [h1ten]; exact hten) h1run
  rw [h2time, h1time, h1ten]
  have hd : (s.timer_tenths + 10) / 10 = 1 := by omega
  rw [hd]
  norm_num

/-- Concrete state for the C10 witness: the active tool 5 has no offsets
row; the elapsed counter still holds 100 seconds from earlier use. -/
def exStale : ToolDatabase :=
  { db := { offsets := [{ idn := 1, chk := 0, fields := exLine }],
            tools := [{ idn := 1, tool := 1, time := 5, rpm := 0, cpt := 0,
                        length := 0, flutes := 0, feed := 0, mfg := "",
                        icon := "not_found.png" }],
            nextId := 2, tool_list := [1], metric_display := true },
    timer := { running := false, tool := 5, time := 100 },
    timer_tenths := 0, current_row := none }

/-- Witness for C10 at the concrete stale state. -/
theorem c10_start_timer_unknown_tool_witness :
    (exStale.timer.tool ≠ 0 ∧
      get_index exStale.db.offsets exStale.timer.tool = none ∧
      exStale.timer_tenths < 10) ∧
    ((start_tool_timer exStale).timer.running = true ∧
      (start_tool_timer exStale).timer.time = exStale.timer.time ∧
      (tool_timer^[10] (start_tool_timer exStale)).timer.time =
        exStale.timer.time + 1) :=
  ⟨⟨by decide, by decide, by decide⟩,
    c10_start_timer_unknown_tool exStale (by decide) (by decide) (by decide)⟩

/-! ### In-place row overwrite (C6) -/

/-- A modified incoming record for tool 1 (new pocket and comment). -/
def exLine6 : ToolLine := { exLine with pocket := 2, comment := "changed" }

/-- C6 counterexample: updating the existing (checked) row of tool 1 in
place rewrites all 16 data columns but leaves the checked flag at its old
value 1 — the row does not become the checked-cleared row the claim's
"overwrites every field including its checked flag" would produce. -/
theorem c6_counterexample :
    update_row [{ idn := 7, chk := 1, fields := exLine }] 0 exLine6 =
      [{ idn := 7, chk := 1, fields := exLine6 }] ∧
    update_row [{ idn := 7, chk := 1, fields := exLine }] 0 exLine6 ≠
      [{ idn := 7, chk := 0, fields := exLine6 }] := by
  constructor
  · decide
  · decide

/-- C6 amended: for an incoming record whose tool number already exists, the
reconciliation step overwrites the 16 data columns of the first matching
offsets row in place — the row keeps its surrogate id and its checked flag,
and the tools table (hence the row linkage) is untouched. -/
theorem c6_update_row_in_place (s : DbState) (line : ToolLine) (row : Nat)
    (hidx : get_index s.offsets line.tool = some row) :
    ∃ r, s.offsets[row]? = some r ∧
      updateStep s line =
        { s with tool_list := s.tool_list ++ [line.tool],
                 offsets := s.offsets.set row
                   { idn := r.idn, chk := r.chk, fields := line } } := by
  obtain ⟨r, hr, hpr⟩ := firstIdx?_getElem hidx
  refine ⟨r, hr, ?_⟩
  unfold updateStep
  simp only [hidx]
  rw [update_row_eq line hr]

/-- Witness for the amended C6: a one-row registry holding tool 1 with the
checked flag set and surrogate id 7, updated in place from `exLine6`. -/
theorem c6_update_row_in_place_witness :
    get_index [{ idn := 7, chk := 1, fields := exLine }] exLine6.tool = some 0 ∧
    (∃ r, ([{ idn := 7, chk := 1, fields := exLine }] :
        List OffsetRow)[(0 : Nat)]? = some r ∧
      updateStep { offsets := [{ idn := 7, chk := 1, fields := exLine }],
                   tools := [], nextId := 8, tool_list := [],
                   metric_display := true } exLine6 =
        { offsets := ([{ idn := 7, chk := 1, fields := exLine }] :
              List OffsetRow).set 0
            { idn := r.idn, chk := r.chk, fields := exLine6 },
          tools := [], nextId := 8, tool_list := [] ++ [exLine6.tool],
          metric_display := true }) :=
  ⟨by decide,
    c6_update_row_in_place
      { offsets := [{ idn := 7, chk := 1, fields := exLine }], tools := [],
        nextId := 8, tool_list := [], metric_display := true }
      exLine6 0 (by decide)⟩

/-! ### Export format of `save_table` (C9) -/

/-- The 16 raw data-column values of one offsets row, in `offset_headers`
order (schema columns 2..17). -/
def offsetRowVals (r : OffsetRow) : List Val :=
  [.vi r.fields.tool, .vi r.fields.pocket, .vr r.fields.x, .vr r.fields.y,
   .vr r.fields.z, .vr r.fields.a, .vr r.fields.b, .vr r.fields.c,
   .vr r.fields.u, .vr r.fields.v, .vr r.fields.w, .vr r.fields.diameter,
   .vr r.fields.i, .vr r.fields.j, .vi r.fields.q, .vs r.fields.comment]

theorem offsetData_some {offsets : List OffsetRow} {row : Nat} {r : OffsetRow}
    (h : offsets[row]? = some r) (col : Nat) :
    offsetData offsets row col = offsetDataRow r col := by
  unfold offsetData
  rw [h]

theorem offsetDataRow_cols (m : Bool) (r : OffsetRow) :
    offsetHeaderCols.map (fun col => displayVal m (offsetDataRow r col)) =
      (offsetRowVals r).map (displayVal m) := rfl

/-- `save_table` produces exactly one line per offsets row, each line being
the row's 16 data values (columns 2..17) display-formatted. -/
theorem save_table_eq (s : DbState) :
    save_table s = s.offsets.map (fun r =>
      (offsetRowVals r).map (displayVal s.metric_display)) := by
  unfold save_table
  apply List.ext_getElem?
  intro k
  rw [List.getElem?_map, List.getElem?_map]
  by_cases hk : k < s.offsets.length
  · rw [List.getElem?_range hk, List.getElem?_eq_getElem hk]
    simp only [Option.map_some']
    congr 1
    have hr : s.offsets[k]? = some (s.offsets.get ⟨k, hk⟩) :=
      List.getElem?_eq_getElem hk
    rw [List.map_congr_left
      (fun col _hcol => by rw [offsetData_some hr col])]
    exact offsetDataRow_cols s.metric_display (s.offsets.get ⟨k, hk⟩)
  · have h1 : (List.range s.offsets.length)[k]? = none := by
      simp
      omega
    have h2 : s.offsets[k]? = none := by
      simp
      omega
    rw [h1, h2]
    rfl

/-- The single offsets row of the C9 counterexample registry: surrogate id
1 but tool number 5, so an idn-led row would be distinguishable. -/
def exRow9 : OffsetRow := { idn := 1, chk := 0, fields := { exLine with tool := 5 } }

/-- The C9 counterexample registry. -/
def exDb9 : DbState :=
  { offsets := [exRow9], tools := [], nextId := 2, tool_list := [5],
    metric_display := true }

/-- The row format asserted by the claim, following the spec's words: the
full `offsets` schema column order `(idn, Chk, Tool, ..., Comment)` — 18
values, starting with the surrogate id and the checked flag. -/
def claimedRowC9 (m : Bool) (r : OffsetRow) : List Val :=
  [.vi r.idn, .vi r.chk] ++ (offsetRowVals r).map (displayVal m)

/-- C9 counterexample: `save_table` on a one-row registry yields one line of
only 16 values — the `offset_headers` iteration starts at column 2, so
`idn` and `Chk` are not exported and the line differs from the claimed
18-column schema-order line. -/
theorem c9_counterexample :
    (save_table exDb9).length = 1 ∧
    ((save_table exDb9).headD []).length = 16 ∧
    (claimedRowC9 true exRow9).length = 18 ∧
    save_table exDb9 ≠ [claimedRowC9 true exRow9] := by
  have hrow : save_table exDb9 =
      [(offsetRowVals exRow9).map (displayVal true)] := by
    rw [save_table_eq]
    rfl
  refine ⟨by rw [hrow]; rfl, by rw [hrow]; rfl, rfl, ?_⟩
  intro heq
  rw [hrow] at heq
  have h2 : (offsetRowVals exRow9).map (displayVal true) =
      claimedRowC9 true exRow9 := by
    injection heq
  have h3 := congrArg List.length h2
  simp only [List.length_map] at h3
  exact absurd h3 (by decide)

/-- C9 amended: `save_table` returns one line per offsets row, each line
holding the row's column values in the `offsets` schema order restricted to
the `offset_headers` columns — Tool, Pocket, X, Y, Z, A, B, C, U, V, W,
Diameter, I, J, Q, Comment — i.e. columns 2..17, excluding `idn` and `Chk`,
with float values display-formatted. -/
theorem c9_save_table_rows (s : DbState) :
    (save_table s).length = s.offsets.length ∧
    save_table s = s.offsets.map (fun r =>
      (offsetRowVals r).map (displayVal s.metric_display)) := by
  refine ⟨?_, save_table_eq s⟩
  rw [save_table_eq s, List.length_map]

end ToolDb
